import Mathlib

/-!
Verification development for the mos_udp_log_catcher repository.

The Go sources (file_log.go, the main/UDP file and the timestamp helper)
are shallowly embedded here.  Byte strings are modelled as `List Nat`
(each element one byte value), Go maps as association lists, and the
filesystem as an oracle of operation outcomes together with an explicit
trace of the operations a call performs.
-/

set_option maxRecDepth 40000

/-- Bytes of a decimal digit test, c in [0x30, 0x39]. -/
def isDigitB (c : Nat) : Bool := 48 ≤ c && c ≤ 57

/-- Hexadecimal digit test (0-9, a-f, A-F). -/
def isHexDigitB (c : Nat) : Bool := isDigitB c || (97 ≤ c && c ≤ 102) || (65 ≤ c && c ≤ 70)

/-- Value of a hexadecimal digit byte. -/
def hexDigitVal (c : Nat) : Nat :=
  if isDigitB c then c - 48 else if 97 ≤ c then c - 87 else c - 55

/-- ASCII lower-casing of one byte, as the lower helper of the strconv package. -/
def lowerByte (c : Nat) : Nat := if 65 ≤ c && c ≤ 90 then c + 32 else c

/-- Value of a list of decimal digit bytes, most significant first. -/
def digitsVal (s : List Nat) : Nat := s.foldl (fun a c => a * 10 + (c - 48)) 0

/-- Value of a list of hexadecimal digit bytes, most significant first. -/
def hexVal (s : List Nat) : Nat := s.foldl (fun a c => a * 16 + hexDigitVal c) 0

/-- Embeds the safeChars table filled in main (file_log.go lines 370-375):
a byte is safe iff it is a letter, a digit, or one of - _ . , space. -/
def safeChars (c : Nat) : Bool :=
  (97 ≤ c && c ≤ 122) || (65 ≤ c && c ≤ 90) || (48 ≤ c && c ≤ 57) ||
  c == 45 || c == 95 || c == 46 || c == 44 || c == 32

/-- Embeds the sanitization loop of parseLine (file_log.go lines 316-320):
every byte outside the allow-set is replaced by an underscore (0x5f). -/
def sanitize (s : List Nat) : List Nat := s.map (fun c => if safeChars c then c else 95)

/-- Embeds bytes.Cut for a one-byte separator: splits at the first occurrence
of sep; none models found = false. -/
def bytesCut (s : List Nat) (sep : Nat) : Option (List Nat × List Nat) :=
  match s with
  | [] => none
  | c :: r => if c = sep then some ([], r) else (bytesCut r sep).map (fun p => (c :: p.1, p.2))

/-- Embeds bytes.Split for a one-byte separator: split at every occurrence,
empty fields preserved; the empty input yields one empty field. -/
def bytesSplit (s : List Nat) (sep : Nat) : List (List Nat) :=
  match s with
  | [] => [[]]
  | c :: r =>
    if c = sep then [] :: bytesSplit r sep
    else
      match bytesSplit r sep with
      | [] => [[c]]
      | h :: t => (c :: h) :: t

/-- Embeds the loop of underscoreOK of the strconv package: the state saw is
encoded as 48 (digit or base mark), 95 (underscore), 33 (anything else,
also the initial state). -/
def underscoreOKLoop (hex : Bool) (saw : Nat) : List Nat → Bool
  | [] => saw ≠ 95
  | c :: r =>
    if (hex && isHexDigitB c) || isDigitB c then underscoreOKLoop hex 48 r
    else if c = 95 then saw == 48 && underscoreOKLoop hex 95 r
    else saw ≠ 95 && underscoreOKLoop hex 33 r

/-- Body of underscoreOK after the optional sign was removed: an optional
base mark 0b, 0o or 0x counts as a digit for the placement rule. -/
def underscoreOKBody (s1 : List Nat) : Bool :=
  match s1 with
  | c0 :: c1 :: r =>
    if c0 = 48 ∧ (lowerByte c1 = 98 ∨ lowerByte c1 = 111 ∨ lowerByte c1 = 120) then
      underscoreOKLoop (lowerByte c1 == 120) 48 r
    else underscoreOKLoop false 33 (c0 :: c1 :: r)
  | _ => underscoreOKLoop false 33 s1

/-- Embeds underscoreOK of the strconv package: underscores may appear only
directly after a digit or base mark and directly before a digit. -/
def underscoreOK (s : List Nat) : Bool :=
  match s with
  | 43 :: r => underscoreOKBody r
  | 45 :: r => underscoreOKBody r
  | _ => underscoreOKBody s

/-- Removes underscore bytes; the grammar below is checked on the stripped
string while underscoreOK validates their placement, which matches what
readFloat of the strconv package accepts. -/
def stripUnd (s : List Nat) : List Nat := s.filter (fun c => c ≠ 95)

/-- Result value of strconv.ParseFloat.  A finite value is kept exactly as
sign, mantissa, base (10 for decimal literals, 2 for hexadecimal ones) and
integer exponent, so the value is neg, m and base to the power e; Go rounds
this exact value to the nearest IEEE-754 double, a rounding this model does
not perform.  Consequently a theorem below asserts a concrete uptime value
only on inputs where the double pipeline is exact, so that the exact value
is the value the program computes: either the uptime value and its product
by 1000 are dyadic rationals with numerator under 2 to the 53 (the
round-trip theorem restricts its inputs to fraction digits divisible by 5
to the fraction length and scaled mantissa under 2 to the 45, which gives
exactly that), or the rounded product is exact anyway (the 0.0015
evaluation: the double product rounds to exactly 1.5).  Every other use of
a parse result relies only on the accept/reject domain, which this model
matches. -/
inductive GoFloat where
  | finite (neg : Bool) (m : Nat) (base : Nat) (e : Int)
  | inf (neg : Bool)
  | nan
  deriving DecidableEq, Repr

/-- Overflow test of the strconv package: a decimal string whose value is at
least the even-rounding midpoint above the largest double, 2 ^ 1024 minus
2 ^ 970, yields ErrRange, which the caller treats as failure. -/
def overflowsF64 (m : Nat) (base : Nat) (e : Int) : Bool :=
  if 0 ≤ e then decide (2 ^ 1024 - 2 ^ 970 ≤ m * base ^ e.toNat)
  else decide ((2 ^ 1024 - 2 ^ 970) * base ^ (-e).toNat ≤ m)

/-- Builds a finite parse result, rejecting values that overflow float64. -/
def mkFinite (neg : Bool) (m : Nat) (base : Nat) (e : Int) : Option GoFloat :=
  if overflowsF64 m base e then none else some (.finite neg m base e)

/-- Embeds special of the strconv package: after the optional sign the whole
rest must be inf, infinity or nan, case-insensitively. -/
def parseSpecial (neg : Bool) (s : List Nat) : Option GoFloat :=
  let ls := s.map lowerByte
  if ls = [105, 110, 102] ∨ ls = [105, 110, 102, 105, 110, 105, 116, 121] then some (.inf neg)
  else if ls = [110, 97, 110] then some .nan
  else none

/-- Exponent digits after the optional sign: at least one decimal digit and
nothing after them. -/
def parseExpDigits (sgn : Int) (rd : List Nat) : Option Int :=
  if rd ≠ [] ∧ rd.all isDigitB then some (sgn * digitsVal rd) else none

/-- Parses the optional decimal exponent tail e or E, sign, digits; the empty
rest means exponent zero; anything else malformed. -/
def parseExpTail (s : List Nat) : Option Int :=
  match s with
  | [] => some 0
  | c :: rr =>
    if c = 101 ∨ c = 69 then
      match rr with
      | 43 :: rrr => parseExpDigits 1 rrr
      | 45 :: rrr => parseExpDigits (-1) rrr
      | _ => parseExpDigits 1 rr
    else none

/-- Fraction part of a mantissa: consumed digits and rest after an optional
dot. -/
def splitFrac (isD : Nat → Bool) (r1 : List Nat) : List Nat × List Nat :=
  match r1 with
  | 46 :: rr => (rr.takeWhile isD, rr.dropWhile isD)
  | _ => ([], r1)

/-- Embeds the decimal branch of readFloat: digits with at most one dot and
at least one digit, then the optional exponent; the value is the digit
string scaled by ten to the exponent minus the fraction length. -/
def parseDecFloat (neg : Bool) (body : List Nat) : Option GoFloat :=
  let intD := body.takeWhile isDigitB
  let fr := splitFrac isDigitB (body.dropWhile isDigitB)
  if intD.length + fr.1.length = 0 then none
  else
    match parseExpTail fr.2 with
    | none => none
    | some e => mkFinite neg (digitsVal (intD ++ fr.1)) 10 (e - fr.1.length)

/-- Embeds the hexadecimal branch of readFloat: hex digits with at most one
dot, a mandatory p exponent in decimal, value scaled by two to the exponent
minus four bits per fraction digit. -/
def parseHexFloat (neg : Bool) (body : List Nat) : Option GoFloat :=
  let intD := body.takeWhile isHexDigitB
  let fr := splitFrac isHexDigitB (body.dropWhile isHexDigitB)
  if intD.length + fr.1.length = 0 then none
  else
    match fr.2 with
    | c :: rr =>
      if lowerByte c = 112 then
        let pexp : Option Int := match rr with
          | 43 :: rrr => parseExpDigits 1 rrr
          | 45 :: rrr => parseExpDigits (-1) rrr
          | _ => parseExpDigits 1 rr
        match pexp with
        | some p => mkFinite neg (hexVal (intD ++ fr.1)) 2 (p - 4 * fr.1.length)
        | none => none
      else none
    | [] => none

/-- Dispatches a number body to the hexadecimal or decimal grammar. -/
def parseFloatNum (neg : Bool) (body : List Nat) : Option GoFloat :=
  match body with
  | 48 :: c :: r => if lowerByte c = 120 then parseHexFloat neg r else parseDecFloat neg body
  | _ => parseDecFloat neg body

/-- Special values first, then the number grammar, as parseFloatPrefix of
the strconv package does. -/
def parseSignedBody (neg : Bool) (body : List Nat) : Option GoFloat :=
  match parseSpecial neg body with
  | some v => some v
  | none => parseFloatNum neg body

/-- Sign handling of ParseFloat on the underscore-stripped string. -/
def parseSigned (s1 : List Nat) : Option GoFloat :=
  match s1 with
  | 43 :: r => parseSignedBody false r
  | 45 :: r => parseSignedBody true r
  | _ => parseSignedBody false s1

/-- Embeds strconv.ParseFloat with bitSize 64: underscore placement check,
optional sign, special values, then the number grammar.  Syntactic failure
and overflow both yield none, matching the err not nil check at the call
site, so the accept/reject domain is that of the program; the finite VALUE
is kept exact rather than rounded to a double, see the GoFloat comment for
how theorems stay faithful despite that.  Underflowing values are accepted
by Go with value zero; this model keeps their exact value instead, a
difference no theorem below relies on. -/
def parseFloat (s : List Nat) : Option GoFloat :=
  if s = [] then none
  else if ¬ underscoreOK s then none
  else parseSigned (stripUnd s)

/-- Embeds strconv.ParseUint with base 10: nonempty, decimal digits only
(no sign, no underscores without a base mark), value below 2 to bits;
out-of-range input yields ErrRange, treated as failure by the caller. -/
def parseUint (s : List Nat) (bits : Nat) : Option Nat :=
  if s = [] then none
  else if s.all isDigitB then
    if digitsVal s < 2 ^ bits then some (digitsVal s) else none
  else none

/-- Embeds the Go conversion uint64(v * 1000) applied to the parsed uptime
float (file_log.go line 302).  Go truncates the float64 product of the
rounded double by 1000; this model truncates the EXACT product toward
zero, and the two can differ by one where double rounding crosses an
integer (uptime 1.005: exact 1005, program 1004).  The theorems asserting
a concrete value therefore confine their inputs as described at GoFloat,
where both computations coincide.  Results outside [0, 2 ^ 64) are
implementation dependent in Go and are modelled as twos-complement
truncation (the amd64 behavior for values representable in int64);
infinities and NaN are also implementation dependent and modelled as
2 ^ 63; no theorem depends on those cases. -/
def uptimeMsOf : GoFloat → Nat
  | .finite neg m base e =>
    let n : Nat := if 0 ≤ e then m * 1000 * base ^ e.toNat else m * 1000 / base ^ (-e).toNat
    if neg then ((-(n : Int)) % (2 ^ 64 : Int)).toNat else n % 2 ^ 64
  | .inf _ => 2 ^ 63
  | .nan => 2 ^ 63

/-- Embeds the level switch of parseLine (file_log.go lines 329-342):
levels 0-4 yield E, W, I, D, V; anything else the digit of level mod 10. -/
def levelCharOf (lvl : Nat) : List Nat :=
  if lvl = 0 then [69]
  else if lvl = 1 then [87]
  else if lvl = 2 then [73]
  else if lvl = 3 then [68]
  else if lvl = 4 then [86]
  else [48 + lvl % 10]

/-- Model of time.Time as far as parseLine consumes it: the calendar fields
behind Format with layout 20060102 (years up to 9999, zero padded), and the
string FormatTimestamp returns at this instant.  Timestamp layout
resolution is an external collaborator, so that string is carried as
data. -/
structure GoTime where
  year : Nat
  month : Nat
  day : Nat
  formatted : List Nat
  deriving DecidableEq, Repr

/-- Two-digit zero-padded decimal rendering. -/
def pad2 (n : Nat) : List Nat := [48 + n / 10 % 10, 48 + n % 10]

/-- Four-digit zero-padded decimal rendering. -/
def pad4 (n : Nat) : List Nat := [48 + n / 1000 % 10, 48 + n / 100 % 10, 48 + n / 10 % 10, 48 + n % 10]

/-- Embeds the LineInfo structure of file_log.go (lines 263-279). -/
structure LineInfo where
  src : List Nat
  timestamp : GoTime
  deviceID : List Nat
  seqNum : Nat
  uptimeMs : Nat
  fd : Nat
  level : Nat
  msg : List Nat
  timestampStr : List Nat
  deviceIDSafe : List Nat
  year : List Nat
  month : List Nat
  day : List Nat
  levelChar : List Nat
  deriving DecidableEq, Repr

/-- Error kinds of parseLine, one per early return. -/
inductive ParseErr where
  | missingDelimiter
  | malformedHeader
  | invalidDeviceId
  | invalidSeqNum
  | invalidUptime
  | invalidFd
  | invalidLevel
  deriving DecidableEq, Repr

/-- Builds the LineInfo record on the success path of parseLine: DeviceID is
captured before the in-place sanitization, DeviceIDSafe after it, the date
fields are sliced from Format 20060102, LevelChar from the level switch. -/
def mkLineInfo (ts : GoTime) (src : List Nat) (p0 : List Nat) (seq : Nat) (v : GoFloat)
    (fd lvl : Nat) (msg : List Nat) : LineInfo :=
  { src := src
    timestamp := ts
    deviceID := p0
    seqNum := seq
    uptimeMs := uptimeMsOf v
    fd := fd
    level := lvl
    msg := msg
    timestampStr := ts.formatted
    deviceIDSafe := sanitize p0
    year := pad4 ts.year
    month := pad2 ts.month
    day := pad2 ts.day
    levelChar := levelCharOf lvl }

/-- Embeds parseLine (file_log.go lines 281-345).  The second component is
the state of the line buffer after the call: the sanitization loop writes
through parts[0], a subslice of the argument, so on success the id field of
the buffer is sanitized in place; every failure path returns before that
loop and leaves the buffer unchanged. -/
def parseLine (ts : GoTime) (src : List Nat) (line : List Nat) :
    Except ParseErr LineInfo × List Nat :=
  match bytesCut line 124 with
  | none => (.error .missingDelimiter, line)
  | some (infoStr, msg) =>
    match bytesSplit infoStr 32 with
    | [p0, p1, p2, p3, p4] =>
      if 0 < p0.length ∧ p0.length ≤ 50 then
        match parseUint p1 64 with
        | none => (.error .invalidSeqNum, line)
        | some seq =>
          match parseFloat p2 with
          | none => (.error .invalidUptime, line)
          | some v =>
            match parseUint p3 32 with
            | none => (.error .invalidFd, line)
            | some fd =>
              match parseUint p4 32 with
              | none => (.error .invalidLevel, line)
              | some lvl =>
                (.ok (mkLineInfo ts src p0 seq v fd lvl msg),
                 sanitize p0 ++ line.drop p0.length)
      else (.error .invalidDeviceId, line)
    | _ => (.error .malformedHeader, line)

/-- Boolean success test on Except. -/
def exceptIsOk {e a : Type} : Except e a → Bool
  | .ok _ => true
  | .error _ => false

/-- Buffer state parseLine leaves behind when it succeeds: the first
whitespace field (a subslice of the line) sanitized in place, the rest
untouched. -/
def mutatedLine (line : List Nat) : List Nat :=
  match bytesCut line 124 with
  | none => line
  | some (info, _) =>
    let p0 := info.takeWhile (fun c => c ≠ 32)
    sanitize p0 ++ line.drop p0.length

/-- Embeds the deviceInfo structure (file_log.go lines 37-41): fdOpen models
fd not nil, fname the currently recorded filename, lastUsed the last-write
clock reading. -/
structure DeviceInfo where
  fdOpen : Bool
  fname : List Nat
  lastUsed : Nat
  deriving DecidableEq, Repr

/-- Outcomes the filesystem would give to each syscall a single writeLine
call can issue; readlinkResult none models a Readlink error. -/
structure FsOracle where
  mkdirOk : Bool
  openOk : Bool
  readlinkResult : Option (List Nat)
  symlinkOk : Bool
  writeRecordOk : Bool
  writeNlOk : Bool
  deriving DecidableEq, Repr

/-- Filesystem operations a call performs, in order, each with the outcome
the oracle supplied; Remove and Close discard their error in the source, so
they carry none. -/
inductive FsOp where
  | closeFile (path : List Nat)
  | mkdirAll (path : List Nat) (ok : Bool)
  | openFile (path : List Nat) (ok : Bool)
  | readlink (path : List Nat) (result : Option (List Nat))
  | remove (path : List Nat)
  | symlink (target : List Nat) (linkPath : List Nat) (ok : Bool)
  | writeRecord (ok : Bool)
  | writeNewline (ok : Bool)
  deriving DecidableEq, Repr

/-- Diagnostics written with klog.Errorf during one writeLine call:
openFailed is the Failed-to-open-log-file message of WriteLine, and
symlinkFailed the Failed-to-symlink message inside Open.  Informational
klog lines are not modelled. -/
inductive Diag where
  | openFailed
  | symlinkFailed
  deriving DecidableEq, Repr

/-- Like Go filepath.Base for the slash-free-component paths built below:
the part after the last slash. -/
def filepathBase (p : List Nat) : List Nat :=
  (p.reverse.takeWhile (fun c => c ≠ 47)).reverse

/-- Like Go filepath.Dir for the paths built below: the part before the last
slash, without the Clean step Go applies.  Clean is the identity on the
paths built from ids free of dot-only components; for a dot-only id such
as the one of the traversal evaluation the recorded mkdirAll path keeps
the raw form (logs slash dot dot) where Go would pass the cleaned one, a
difference in the trace label only, which no theorem below inspects. -/
def filepathDir (p : List Nat) : List Nat :=
  match p.reverse.dropWhile (fun c => c ≠ 47) with
  | 47 :: rr => rr.reverse
  | _ => [46]

/-- Result of executing the per-day filename template of NewFileManager,
dir slash DeviceIDSafe slash DeviceIDSafe dot Year Month Day dot log
(file_log.go lines 33 and 136); execution of this fixed template on a
LineInfo cannot fail, so no error case is modelled. -/
def deviceLogPath (dir : List Nat) (li : LineInfo) : List Nat :=
  dir ++ 47 :: li.deviceIDSafe ++ 47 :: li.deviceIDSafe ++ 46 ::
    (li.year ++ li.month ++ li.day) ++ [46, 108, 111, 103]

/-- Result of executing the latest-symlink template of NewFileManager,
dir slash DeviceIDSafe slash DeviceIDSafe dot log (file_log.go lines 34
and 139). -/
def latestLogPath (dir : List Nat) (li : LineInfo) : List Nat :=
  dir ++ 47 :: li.deviceIDSafe ++ 47 :: li.deviceIDSafe ++ [46, 108, 111, 103]

/-- Embeds deviceInfo.Open (file_log.go lines 43-81).  Returns the device
state after the call, the trace of filesystem operations performed, the
error diagnostics logged inside Open, and whether Open returned nil.
latestConfigured models latestNameTmpl not nil (NewFileManager always
configures it). -/
def diOpen (latestConfigured : Bool) (dir : List Nat) (li : LineInfo) (fs : FsOracle)
    (di : DeviceInfo) : DeviceInfo × List FsOp × List Diag × Bool :=
  let fname := deviceLogPath dir li
  if di.fname = fname ∧ di.fdOpen then (di, [], [], true)
  else
    let t1 : List FsOp := if di.fdOpen then [.closeFile di.fname] else []
    let di2 : DeviceInfo := { di with fdOpen := false, fname := fname }
    if ¬ fs.mkdirOk then (di2, t1 ++ [.mkdirAll (filepathDir fname) false], [], false)
    else if ¬ fs.openOk then
      (di2, t1 ++ [.mkdirAll (filepathDir fname) true, .openFile fname false], [], false)
    else
      let di3 : DeviceInfo := { di2 with fdOpen := true }
      let t2 := t1 ++ [.mkdirAll (filepathDir fname) true, .openFile fname true]
      if latestConfigured then
        let latestName := latestLogPath dir li
        let latestBase := filepathBase fname
        let t3 := t2 ++ [.readlink latestName fs.readlinkResult]
        if fs.readlinkResult ≠ some latestBase then
          if fs.symlinkOk then
            (di3, t3 ++ [.remove latestName, .symlink latestBase latestName true], [], true)
          else
            (di3, t3 ++ [.remove latestName, .symlink latestBase latestName false],
             [.symlinkFailed], true)
        else (di3, t3, [], true)
      else (di3, t2, [], true)

/-- Lookup in the association-list model of the devices map. -/
def findDevice : List (List Nat × DeviceInfo) → List Nat → Option DeviceInfo
  | [], _ => none
  | (k0, v0) :: t, k => if k0 = k then some v0 else findDevice t k

/-- Insert-or-update in the association-list model of the devices map. -/
def setDevice : List (List Nat × DeviceInfo) → List Nat → DeviceInfo →
    List (List Nat × DeviceInfo)
  | [], k, v => [(k, v)]
  | (k0, v0) :: t, k, v => if k0 = k then (k, v) :: t else (k0, v0) :: setDevice t k v

/-- Embeds FileManager.WriteLine (file_log.go lines 109-126).  The device
entry is looked up or created with lastUsed set to now; Open runs with the
two fixed name templates; on Open failure the Failed-to-open diagnostic is
logged and the call returns with the line dropped; on success the record
template and a newline byte are written with both errors discarded, and
lastUsed is refreshed.  The mutated device (a pointer in Go) is stored back
in the map in every case. -/
def fmWriteLine (latestConfigured : Bool) (dir : List Nat) (fs : FsOracle) (now : Nat)
    (devices : List (List Nat × DeviceInfo)) (li : LineInfo) :
    List (List Nat × DeviceInfo) × List FsOp × List Diag :=
  let di := (findDevice devices li.deviceIDSafe).getD ⟨false, [], now⟩
  let r := diOpen latestConfigured dir li fs di
  if r.2.2.2 then
    (setDevice devices li.deviceIDSafe { r.1 with lastUsed := now },
     r.2.1 ++ [.writeRecord fs.writeRecordOk, .writeNewline fs.writeNlOk],
     r.2.2.1)
  else
    (setDevice devices li.deviceIDSafe r.1, r.2.1, r.2.2.1 ++ [.openFailed])

/-- Embeds buf.ReadBytes with delimiter newline: everything up to and
including the first newline, or the whole rest when none is present (the
error it also returns then is discarded at the call site). -/
def readBytesNewline (buf : List Nat) : List Nat × List Nat :=
  match buf with
  | [] => ([], [])
  | c :: rest =>
    if c = 10 then ([10], rest)
    else
      let p := readBytesNewline rest
      (c :: p.1, p.2)

/-- Embeds bytes.TrimRight of the line with cutset CR LF: removes every
trailing byte 13 or 10. -/
def trimCRLF (l : List Nat) : List Nat :=
  (l.reverse.dropWhile (fun c => c = 13 || c = 10)).reverse

/-- Embeds the per-packet loop of UDPLog (file_log.go lines 252-258): while
more than 10 bytes remain, read one newline-terminated chunk, trim CR and
LF on the right, and hand it to processLine.  Returns the trimmed lines
handed over, in order. -/
def packetLines (buf : List Nat) : List (List Nat) :=
  if h : 10 < buf.length then
    have hlt : (readBytesNewline buf).2.length < buf.length := by
      have hsum : ∀ b : List Nat,
          (readBytesNewline b).1.length + (readBytesNewline b).2.length = b.length := by
        intro b
        induction b with
        | nil => simp [readBytesNewline]
        | cons c rest ih => by_cases hc : c = 10 <;> simp [readBytesNewline, hc] <;> omega
      have hne : (readBytesNewline buf).1 ≠ [] := by
        rcases buf with _ | ⟨c, rest⟩
        · simp at h
        · by_cases hc : c = 10 <;> simp [readBytesNewline, hc]
      have hs := hsum buf
      have hpos : 0 < (readBytesNewline buf).1.length := List.length_pos.mpr hne
      omega
    trimCRLF (readBytesNewline buf).1 :: packetLines (readBytesNewline buf).2
  else []
termination_by buf.length

/-- Embeds the same loop including the processLine calls: each handed-over
line is parsed (processLine, file_log.go lines 347-360) and the outcome
logged on error, after which the loop continues regardless; the list of
parse outcomes is returned in order. -/
def processPacket (ts : GoTime) (src : List Nat) (buf : List Nat) :
    List (Except ParseErr LineInfo) :=
  if h : 10 < buf.length then
    have hlt : (readBytesNewline buf).2.length < buf.length := by
      have hsum : ∀ b : List Nat,
          (readBytesNewline b).1.length + (readBytesNewline b).2.length = b.length := by
        intro b
        induction b with
        | nil => simp [readBytesNewline]
        | cons c rest ih => by_cases hc : c = 10 <;> simp [readBytesNewline, hc] <;> omega
      have hne : (readBytesNewline buf).1 ≠ [] := by
        rcases buf with _ | ⟨c, rest⟩
        · simp at h
        · by_cases hc : c = 10 <;> simp [readBytesNewline, hc]
      have hs := hsum buf
      have hpos : 0 < (readBytesNewline buf).1.length := List.length_pos.mpr hne
      omega
    (parseLine ts src (trimCRLF (readBytesNewline buf).1)).1 ::
      processPacket ts src (readBytesNewline buf).2
  else []
termination_by buf.length

/-- Decimal rendering of a natural number, most significant digit first;
used to build the well-formed records the claims quantify over. -/
def natToDigits (n : Nat) : List Nat :=
  if n < 10 then [48 + n] else natToDigits (n / 10) ++ [48 + n % 10]
termination_by n
decreasing_by
  simp_wf
  omega

/-- Record constructor of the wire format the spec states, id seq uptime fd
level, single spaces, one pipe, then the message. -/
def mkRecord (id seqD upD fdD lvlD msg : List Nat) : List Nat :=
  id ++ 32 :: (seqD ++ 32 :: (upD ++ 32 :: (fdD ++ 32 :: (lvlD ++ 124 :: msg))))

/-- Round half up on the exact scaled value A over B, the rounding the spec
asserts for the uptime conversion. -/
def roundHalfUp (A B : Nat) : Nat := (2 * A + B) / (2 * B)

/-- Concrete receive instant used by the closed evaluation theorems:
2022-01-02, no timestamp format configured. -/
def t0 : GoTime := ⟨2022, 1, 2, []⟩

/-- Record bytes of ".. 1 1 1 1|m". -/
def c3line : List Nat := [46, 46, 32, 49, 32, 49, 32, 49, 32, 49, 124, 109]

/-- Record bytes of "d 1 0.0015 1 1|m". -/
def c4line : List Nat := [100, 32, 49, 32, 48, 46, 48, 48, 49, 53, 32, 49, 32, 49, 124, 109]

/-- Record bytes of "d 1 -1.5 1 1|m". -/
def c5line : List Nat := [100, 32, 49, 32, 45, 49, 46, 53, 32, 49, 32, 49, 124, 109]

/-- Record bytes of "a* 1 1 1 1|m". -/
def c8line : List Nat := [97, 42, 32, 49, 32, 49, 32, 49, 32, 49, 124, 109]

/-- Record bytes of "a 1 1 1 17|m". -/
def c6line : List Nat := [97, 32, 49, 32, 49, 32, 49, 32, 49, 55, 124, 109]

/-- Parse result of c6line, used by the level-character witness. -/
def li17 : LineInfo := mkLineInfo t0 [] [97] 1 (GoFloat.finite false 1 10 0) 1 17 [109]

/-- Event used by the closed file-manager evaluations: device id "a". -/
def liA : LineInfo := mkLineInfo t0 [] [97] 1 (GoFloat.finite false 1 10 0) 1 1 []

/-- Oracle where every filesystem operation succeeds and the latest symlink
does not yet exist. -/
def fsAllOk : FsOracle := ⟨true, true, none, true, true, true⟩

/-- Device handle already open on the file of the current day for liA under
log root "d". -/
def devFast : DeviceInfo := ⟨true, deviceLogPath [100] liA, 0⟩

/-- Device handle open on the stale file "old" for device "a". -/
def devOld : DeviceInfo := ⟨true, [111, 108, 100], 0⟩

/-- Oracle whose directory creation fails. -/
def fsMkFail : FsOracle := ⟨false, true, none, true, true, true⟩

/-- Oracle where rotation succeeds but the record append fails. -/
def fsWriteFail : FsOracle := ⟨true, true, none, true, false, true⟩

/-- First record of the C9 packet, 11 bytes. -/
def c9l : List Nat := [97, 32, 49, 32, 50, 32, 51, 32, 52, 124, 109]

theorem digitsVal_shift (b : List Nat) :
    ∀ acc, b.foldl (fun a c => a * 10 + (c - 48)) acc =
      acc * 10 ^ b.length + digitsVal b := by
  induction b with
  | nil => intro acc; simp [digitsVal]
  | cons c r ih =>
    intro acc
    have h1 := ih (acc * 10 + (c - 48))
    have h2 := ih (0 * 10 + (c - 48))
    simp only [List.foldl_cons, digitsVal] at *
    rw [h1, h2]
    simp [List.length_cons, pow_succ]
    ring

theorem digitsVal_append (a b : List Nat) :
    digitsVal (a ++ b) = digitsVal a * 10 ^ b.length + digitsVal b := by
  unfold digitsVal
  rw [List.foldl_append]
  exact digitsVal_shift b _

theorem natToDigits_mem (n : Nat) : ∀ c ∈ natToDigits n, 48 ≤ c ∧ c ≤ 57 := by
  induction n using Nat.strong_induction_on with
  | _ n ih =>
    intro c hc
    rw [natToDigits] at hc
    by_cases h : n < 10
    · simp [h] at hc
      omega
    · simp [h] at hc
      rcases hc with hc | hc
      · exact ih (n / 10) (by omega) c hc
      · have : n % 10 < 10 := Nat.mod_lt n (by omega)
        omega

theorem natToDigits_ne_nil (n : Nat) : natToDigits n ≠ [] := by
  rw [natToDigits]
  by_cases h : n < 10 <;> simp [h]

theorem digitsVal_natToDigits (n : Nat) : digitsVal (natToDigits n) = n := by
  induction n using Nat.strong_induction_on with
  | _ n ih =>
    rw [natToDigits]
    by_cases h : n < 10
    · simp [h, digitsVal]
    · simp only [h, if_false]
      rw [digitsVal_append]
      have hih := ih (n / 10) (by omega)
      rw [hih]
      simp [digitsVal]
      omega

theorem natToDigits_all_digits (n : Nat) : (natToDigits n).all isDigitB = true := by
  rw [List.all_eq_true]
  intro c hc
  have := natToDigits_mem n c hc
  simp [isDigitB]
  omega

theorem natToDigits_not_mem_32 (n : Nat) : 32 ∉ natToDigits n := by
  intro h
  have := natToDigits_mem n 32 h
  omega

theorem natToDigits_not_mem_124 (n : Nat) : 124 ∉ natToDigits n := by
  intro h
  have := natToDigits_mem n 124 h
  omega

theorem parseUint_digits (s : List Nat) (bits : Nat) (hne : s ≠ [])
    (hd : s.all isDigitB = true) (hr : digitsVal s < 2 ^ bits) :
    parseUint s bits = some (digitsVal s) := by
  simp [parseUint, hne, hd, hr]

theorem parseUint_natToDigits (n bits : Nat) (h : n < 2 ^ bits) :
    parseUint (natToDigits n) bits = some n := by
  have := parseUint_digits (natToDigits n) bits (natToDigits_ne_nil n)
    (natToDigits_all_digits n)
  rw [digitsVal_natToDigits] at this
  exact this h

theorem bytesCut_not_mem (a : List Nat) (sep : Nat) (h : sep ∉ a) :
    bytesCut a sep = none := by
  induction a with
  | nil => rfl
  | cons c r ih =>
    simp at h
    have hc : ¬ c = sep := fun hcc => h.1 hcc.symm
    simp [bytesCut, hc, ih h.2]

theorem bytesCut_append (a b : List Nat) (sep : Nat) (h : sep ∉ a) :
    bytesCut (a ++ sep :: b) sep = some (a, b) := by
  induction a with
  | nil => simp [bytesCut]
  | cons c r ih =>
    simp at h
    have hc : c ≠ sep := fun hcc => h.1 hcc.symm
    simp [bytesCut, hc, ih h.2]

theorem bytesSplit_not_mem (a : List Nat) (sep : Nat) (h : sep ∉ a) :
    bytesSplit a sep = [a] := by
  induction a with
  | nil => rfl
  | cons c r ih =>
    simp at h
    have hc : c ≠ sep := fun hcc => h.1 hcc.symm
    simp [bytesSplit, hc, ih h.2]

theorem bytesSplit_append (a b : List Nat) (sep : Nat) (h : sep ∉ a) :
    bytesSplit (a ++ sep :: b) sep = a :: bytesSplit b sep := by
  induction a with
  | nil => simp [bytesSplit]
  | cons c r ih =>
    simp at h
    have hc : c ≠ sep := fun hcc => h.1 hcc.symm
    simp [bytesSplit, hc, ih h.2]

theorem bytesSplit_ne_nil (s : List Nat) (sep : Nat) : bytesSplit s sep ≠ [] := by
  match s with
  | [] => simp [bytesSplit]
  | c :: r =>
    by_cases hc : c = sep
    · simp [bytesSplit, hc]
    · simp only [bytesSplit, if_neg hc]
      rcases hr : bytesSplit r sep with _ | ⟨rh, rt⟩ <;> simp

theorem bytesSplit_head (s : List Nat) (sep : Nat) (h0 : List Nat)
    (t : List (List Nat)) (h : bytesSplit s sep = h0 :: t) :
    h0 = s.takeWhile (fun c => c ≠ sep) := by
  induction s generalizing h0 t with
  | nil =>
    simp [bytesSplit] at h
    simp [h.1]
  | cons c r ih =>
    by_cases hc : c = sep
    · simp [bytesSplit, hc] at h
      simp [List.takeWhile, hc, h.1]
    · simp only [bytesSplit, if_neg hc] at h
      rcases hr : bytesSplit r sep with _ | ⟨rh, rt⟩
      · exact absurd hr (bytesSplit_ne_nil r sep)
      · rw [hr] at h
        simp at h
        have hih := ih rh rt hr
        simp only [List.takeWhile, hc]
        simp [← h.1, hih, hc]

theorem underscoreOKLoop_no95 (l : List Nat) :
    ∀ hex saw, 95 ∉ l → saw ≠ 95 → underscoreOKLoop hex saw l = true := by
  induction l with
  | nil =>
    intro hex saw _ hsaw
    simp [underscoreOKLoop, hsaw]
  | cons c r ih =>
    intro hex saw hm hsaw
    simp at hm
    have hc : ¬ c = 95 := fun hcc => hm.1 hcc.symm
    by_cases hd : (hex && isHexDigitB c) || isDigitB c
    · simp [underscoreOKLoop, hd, ih hex 48 hm.2 (by omega)]
    · simp only [underscoreOKLoop, hd, if_false, if_neg hc]
      simp [hsaw, ih hex 33 hm.2 (by omega)]

theorem underscoreOKBody_no95 (s1 : List Nat) (h : 95 ∉ s1) :
    underscoreOKBody s1 = true := by
  match s1 with
  | [] => simp [underscoreOKBody, underscoreOKLoop]
  | [c0] => exact underscoreOKLoop_no95 [c0] false 33 h (by omega)
  | c0 :: c1 :: r =>
    simp only [underscoreOKBody]
    by_cases hb : c0 = 48 ∧ (lowerByte c1 = 98 ∨ lowerByte c1 = 111 ∨ lowerByte c1 = 120)
    · rw [if_pos hb]
      simp at h
      exact underscoreOKLoop_no95 r _ 48 h.2.2 (by omega)
    · rw [if_neg hb]
      exact underscoreOKLoop_no95 _ false 33 h (by omega)

theorem underscoreOK_no95 (s : List Nat) (h : 95 ∉ s) : underscoreOK s = true := by
  unfold underscoreOK
  split
  · rename_i r
    apply underscoreOKBody_no95
    simp at h
    exact h
  · rename_i r
    apply underscoreOKBody_no95
    simp at h
    exact h
  · exact underscoreOKBody_no95 _ h

theorem stripUnd_no95 (s : List Nat) (h : 95 ∉ s) : stripUnd s = s := by
  induction s with
  | nil => rfl
  | cons c r ih =>
    simp at h
    have hc : ¬ c = 95 := fun hcc => h.1 hcc.symm
    simp [stripUnd, hc]
    intro a ha heq
    exact h.2 (heq ▸ ha)

theorem takeWhile_append_not (p : Nat → Bool) (a : List Nat) (b0 : Nat) (b : List Nat)
    (ha : ∀ c ∈ a, p c = true) (hb : p b0 = false) :
    (a ++ b0 :: b).takeWhile p = a := by
  induction a with
  | nil => simp [List.takeWhile, hb]
  | cons c r ih =>
    have hc : p c = true := ha c (by simp)
    simp [List.takeWhile, hc]
    exact ih fun x hx => ha x (by simp [hx])

theorem dropWhile_append_not (p : Nat → Bool) (a : List Nat) (b0 : Nat) (b : List Nat)
    (ha : ∀ c ∈ a, p c = true) (hb : p b0 = false) :
    (a ++ b0 :: b).dropWhile p = b0 :: b := by
  induction a with
  | nil => simp [List.dropWhile, hb]
  | cons c r ih =>
    have hc : p c = true := ha c (by simp)
    simp [List.dropWhile, hc]
    exact ih fun x hx => ha x (by simp [hx])

theorem takeWhile_all (p : Nat → Bool) (a : List Nat) (ha : ∀ c ∈ a, p c = true) :
    a.takeWhile p = a := by
  induction a with
  | nil => rfl
  | cons c r ih =>
    have hc : p c = true := ha c (by simp)
    simp [List.takeWhile, hc]
    exact fun x hx => ha x (by simp [hx])

theorem dropWhile_all (p : Nat → Bool) (a : List Nat) (ha : ∀ c ∈ a, p c = true) :
    a.dropWhile p = [] := by
  induction a with
  | nil => rfl
  | cons c r ih =>
    have hc : p c = true := ha c (by simp)
    simp [List.dropWhile, hc]
    exact fun x hx => ha x (by simp [hx])

theorem lowerByte_of_le_64 (c : Nat) (h : c ≤ 64) : lowerByte c = c := by
  unfold lowerByte
  split
  · rename_i hcond
    simp at hcond
    omega
  · rfl

theorem parseSpecial_digit_head (neg : Bool) (c : Nat) (r : List Nat)
    (hc : isDigitB c = true) : parseSpecial neg (c :: r) = none := by
  simp [isDigitB] at hc
  have hl : lowerByte c = c := lowerByte_of_le_64 c (by omega)
  have hA : ¬ (c :: List.map lowerByte r = [105, 110, 102] ∨
      c :: List.map lowerByte r = [105, 110, 102, 105, 110, 105, 116, 121]) := by
    rintro (heq | heq) <;> (injection heq with h1 _; omega)
  have hB : ¬ (c :: List.map lowerByte r = [110, 97, 110]) := by
    intro heq
    injection heq with h1 _
    omega
  simp only [parseSpecial, List.map_cons, hl]
  rw [if_neg hA, if_neg hB]

theorem parseFloatNum_digits_dot (neg : Bool) (I F : List Nat)
    (hI : ∀ c ∈ I, isDigitB c = true) (hne : I ≠ []) :
    parseFloatNum neg (I ++ 46 :: F) = parseDecFloat neg (I ++ 46 :: F) := by
  match I with
  | [] => exact absurd rfl hne
  | [c0] =>
    simp only [parseFloatNum, List.cons_append, List.nil_append]
    split
    · rename_i c r heq
      injection heq with h1 h2
      injection h2 with h3 h4
      rw [← h3]
      norm_num [lowerByte]
    · rfl
  | c0 :: c1 :: I2 =>
    have h1 : isDigitB c1 = true := hI c1 (by simp)
    simp [isDigitB] at h1
    have hl : lowerByte c1 = c1 := lowerByte_of_le_64 c1 (by omega)
    simp only [parseFloatNum, List.cons_append]
    split
    · rename_i c r heq
      injection heq with ha hb
      injection hb with hc hd
      rw [← hc, hl, if_neg (by omega : ¬ c1 = 120)]
    · rfl

theorem two_pow_64_lt_K : 2 ^ 64 < 2 ^ 1024 - 2 ^ 970 := by
  have h1 : (2 : Nat) ^ 64 < 2 ^ 970 := Nat.pow_lt_pow_right (by norm_num) (by norm_num)
  have h2 : (2 : Nat) ^ 971 ≤ 2 ^ 1024 := Nat.pow_le_pow_right (by norm_num) (by norm_num)
  have h3 : (2 : Nat) ^ 971 = 2 ^ 970 * 2 := pow_succ 2 970
  omega

theorem overflowsF64_dec_false (m k : Nat) (h : m < 2 ^ 64 * 10 ^ k) :
    overflowsF64 m 10 (-(k : Int)) = false := by
  have hK := two_pow_64_lt_K
  unfold overflowsF64
  by_cases hk : k = 0
  · subst hk
    norm_num at h ⊢
    omega
  · have hneg : ¬ (0 : Int) ≤ -(k : Int) := by omega
    rw [if_neg hneg]
    have ht : (-(-(k : Int))).toNat = k := by omega
    rw [ht]
    simp only [decide_eq_false_iff_not, not_le]
    exact lt_of_lt_of_le h (Nat.mul_le_mul_right (10 ^ k) hK.le)

theorem mkFinite_dec (neg : Bool) (m k : Nat) (h : m < 2 ^ 64 * 10 ^ k) :
    mkFinite neg m 10 (-(k : Int)) = some (.finite neg m 10 (-(k : Int))) := by
  simp [mkFinite, overflowsF64_dec_false m k h]

theorem uptimeMsOf_dec (m k : Nat) (h : m * 1000 / 10 ^ k < 2 ^ 64) :
    uptimeMsOf (.finite false m 10 (-(k : Int))) = m * 1000 / 10 ^ k := by
  by_cases hk : k = 0
  · subst hk
    norm_num at h
    simp [uptimeMsOf]
    omega
  · have hneg : ¬ (0 : Int) ≤ -(k : Int) := by omega
    have ht : (-(-(k : Int))).toNat = k := by omega
    simp only [uptimeMsOf, if_neg hneg, ht, Bool.false_eq_true, if_false]
    exact Nat.mod_eq_of_lt h

theorem parseDecFloat_digits_dot (neg : Bool) (I F : List Nat)
    (hI : ∀ c ∈ I, isDigitB c = true) (hIne : I ≠ [])
    (hF : ∀ c ∈ F, isDigitB c = true) :
    parseDecFloat neg (I ++ 46 :: F) =
      mkFinite neg (digitsVal (I ++ F)) 10 (-(F.length : Int)) := by
  have hd46 : isDigitB 46 = false := by decide
  have htake : (I ++ 46 :: F).takeWhile isDigitB = I := takeWhile_append_not _ I 46 F hI hd46
  have hdrop : (I ++ 46 :: F).dropWhile isDigitB = 46 :: F := dropWhile_append_not _ I 46 F hI hd46
  have hsf : splitFrac isDigitB (46 :: F) = (F, []) := by
    simp [splitFrac, takeWhile_all isDigitB F hF, dropWhile_all isDigitB F hF]
  have hlen : ¬ I.length + F.length = 0 := by
    rcases I with _ | ⟨c, r⟩
    · exact absurd rfl hIne
    · simp
  simp only [parseDecFloat, htake, hdrop, hsf, hlen, if_false, if_neg hlen]
  simp [parseExpTail]

theorem parseFloat_dec (I F : List Nat)
    (hI : ∀ c ∈ I, isDigitB c = true) (hIne : I ≠ [])
    (hF : ∀ c ∈ F, isDigitB c = true)
    (hr : digitsVal (I ++ F) < 2 ^ 64 * 10 ^ F.length) :
    parseFloat (I ++ 46 :: F) =
      some (.finite false (digitsVal (I ++ F)) 10 (-(F.length : Int))) := by
  have h95 : 95 ∉ I ++ 46 :: F := by
    intro hmem
    rcases List.mem_append.mp hmem with hm | hm
    · have := hI 95 hm
      simp [isDigitB] at this
    · rcases List.mem_cons.mp hm with he | hm2
      · exact absurd he (by norm_num)
      · have := hF 95 hm2
        simp [isDigitB] at this
  obtain ⟨c0, I2, rfl⟩ : ∃ c0 I2, I = c0 :: I2 := by
    rcases I with _ | ⟨c0, I2⟩
    · exact absurd rfl hIne
    · exact ⟨c0, I2, rfl⟩
  have h0 : isDigitB c0 = true := hI c0 (by simp)
  have h0r : 48 ≤ c0 ∧ c0 ≤ 57 := by
    simp [isDigitB] at h0
    exact h0
  have hsne : ¬ ((c0 :: I2) ++ 46 :: F = []) := by simp
  have hu : underscoreOK ((c0 :: I2) ++ 46 :: F) = true := underscoreOK_no95 _ h95
  have hu2 : underscoreOK (c0 :: (I2 ++ 46 :: F)) = true := by
    rw [← List.cons_append]
    exact hu
  rw [parseFloat, if_neg hsne, if_neg (by simp [hu, hu2]), stripUnd_no95 _ h95]
  have hsig : parseSigned ((c0 :: I2) ++ 46 :: F) =
      parseSignedBody false ((c0 :: I2) ++ 46 :: F) := by
    unfold parseSigned
    split
    · rename_i r heq
      rw [List.cons_append] at heq
      injection heq with ha _
      omega
    · rename_i r heq
      rw [List.cons_append] at heq
      injection heq with ha _
      omega
    · rfl
  rw [hsig]
  unfold parseSignedBody
  rw [List.cons_append, parseSpecial_digit_head false c0 _ h0, ← List.cons_append]
  rw [parseFloatNum_digits_dot false (c0 :: I2) F hI hIne]
  rw [parseDecFloat_digits_dot false (c0 :: I2) F hI hIne hF]
  exact mkFinite_dec false _ F.length hr

theorem mkRecord_eq (id sD uD fD lD msg : List Nat) :
    mkRecord id sD uD fD lD msg =
      (id ++ 32 :: (sD ++ 32 :: (uD ++ 32 :: (fD ++ 32 :: lD)))) ++ 124 :: msg := by
  simp [mkRecord]

theorem record_cut (id sD uD fD lD msg : List Nat)
    (h1 : 124 ∉ id) (h2 : 124 ∉ sD) (h3 : 124 ∉ uD) (h4 : 124 ∉ fD) (h5 : 124 ∉ lD) :
    bytesCut (mkRecord id sD uD fD lD msg) 124 =
      some (id ++ 32 :: (sD ++ 32 :: (uD ++ 32 :: (fD ++ 32 :: lD))), msg) := by
  rw [mkRecord_eq]
  apply bytesCut_append
  simp [h1, h2, h3, h4, h5]

theorem header_split (id sD uD fD lD : List Nat)
    (h1 : 32 ∉ id) (h2 : 32 ∉ sD) (h3 : 32 ∉ uD) (h4 : 32 ∉ fD) (h5 : 32 ∉ lD) :
    bytesSplit (id ++ 32 :: (sD ++ 32 :: (uD ++ 32 :: (fD ++ 32 :: lD)))) 32 =
      [id, sD, uD, fD, lD] := by
  rw [bytesSplit_append _ _ _ h1, bytesSplit_append _ _ _ h2, bytesSplit_append _ _ _ h3,
    bytesSplit_append _ _ _ h4, bytesSplit_not_mem _ _ h5]

theorem digitList_not_mem_32 (s : List Nat) (h : ∀ c ∈ s, isDigitB c = true) : 32 ∉ s := by
  intro hm
  have := h 32 hm
  simp [isDigitB] at this

theorem digitList_not_mem_124 (s : List Nat) (h : ∀ c ∈ s, isDigitB c = true) : 124 ∉ s := by
  intro hm
  have := h 124 hm
  simp [isDigitB] at this

theorem natToDigits_digits (n : Nat) : ∀ c ∈ natToDigits n, isDigitB c = true :=
  List.all_eq_true.mp (natToDigits_all_digits n)

theorem upField_digits_facts (ip : Nat) (fr : List Nat)
    (hfrd : ∀ c ∈ fr, isDigitB c = true) :
    32 ∉ natToDigits ip ++ 46 :: fr ∧ 124 ∉ natToDigits ip ++ 46 :: fr := by
  constructor <;>
  · intro hm
    rcases List.mem_append.mp hm with hm | hm
    · have := natToDigits_mem ip _ hm
      omega
    · rcases List.mem_cons.mp hm with he | hm2
      · norm_num at he
      · have := hfrd _ hm2
        simp [isDigitB] at this

/-- C4 (amended): for every well-formed record built from in-range fields
with a decimal uptime of the form ip.fr whose value the float64 pipeline
of the program handles exactly, parse succeeds and every field round-trips
exactly, with deviceIDSafe the sanitized id and uptimeMs the TRUNCATION
(not the rounding) of the uptime value times 1000: with M the scaled
mantissa ip times ten to the fraction length plus the fraction value, the
result is M * 1000 / 10 ^ len fr with Nat division, which discards the
remainder (witness: uptime 12.5 yields 12500).  The hypotheses hdy (the
fraction value divisible by 5 to the fraction length) and hM (M under 2 to
the 45) are not needed to prove the statement about the embedding; they
confine it to the inputs on which the embedding provably coincides with
the program: under them the uptime value M over 10 to the k equals A over
2 to the k with A = M / 5 ^ k < 2 ^ 45, a dyadic rational that ParseFloat
returns exactly, and its product by 1000 has dyadic numerator A * 125 <
2 ^ 53, so the float64 multiplication is also exact and uint64 of it
truncates the same integer this formula does.  Outside these inputs the
program truncates the float64 product, which can differ by one from the
exact truncation in either direction (uptime 1.005 yields 1004, not
1005). -/
theorem c4_round_trip_truncated
    (ts : GoTime) (src id : List Nat) (seq ip : Nat) (fr : List Nat)
    (fd lvl : Nat) (msg : List Nat)
    (hid1 : 0 < id.length) (hid2 : id.length ≤ 50)
    (hid32 : 32 ∉ id) (hid124 : 124 ∉ id)
    (hfrd : ∀ c ∈ fr, isDigitB c = true)
    (hseq : seq < 2 ^ 64) (hfd : fd < 2 ^ 32) (hlvl : lvl < 2 ^ 32)
    (hdy : 5 ^ fr.length ∣ digitsVal fr)
    (hM : ip * 10 ^ fr.length + digitsVal fr < 2 ^ 45) :
    (parseLine ts src (mkRecord id (natToDigits seq) (natToDigits ip ++ 46 :: fr)
        (natToDigits fd) (natToDigits lvl) msg)).1 =
      Except.ok
        { src := src, timestamp := ts, deviceID := id, seqNum := seq,
          uptimeMs := (ip * 10 ^ fr.length + digitsVal fr) * 1000 / 10 ^ fr.length,
          fd := fd, level := lvl, msg := msg, timestampStr := ts.formatted,
          deviceIDSafe := sanitize id, year := pad4 ts.year, month := pad2 ts.month,
          day := pad2 ts.day, levelChar := levelCharOf lvl } := by
  have hup : (ip * 10 ^ fr.length + digitsVal fr) * 1000 / 10 ^ fr.length < 2 ^ 64 := by
    have h1 := Nat.div_le_self ((ip * 10 ^ fr.length + digitsVal fr) * 1000) (10 ^ fr.length)
    have e45 : (2 : Nat) ^ 45 = 35184372088832 := by norm_num
    have e64 : (2 : Nat) ^ 64 = 18446744073709551616 := by norm_num
    omega
  obtain ⟨hu32, hu124⟩ := upField_digits_facts ip fr hfrd
  have hs32 := natToDigits_not_mem_32 seq
  have hs124 := natToDigits_not_mem_124 seq
  have hf32 := natToDigits_not_mem_32 fd
  have hf124 := natToDigits_not_mem_124 fd
  have hl32 := natToDigits_not_mem_32 lvl
  have hl124 := natToDigits_not_mem_124 lvl
  have hM : digitsVal (natToDigits ip ++ fr) = ip * 10 ^ fr.length + digitsVal fr := by
    rw [digitsVal_append, digitsVal_natToDigits]
  have hkpos : (0 : Nat) < 10 ^ fr.length := Nat.pow_pos (by norm_num)
  have hMlt : ip * 10 ^ fr.length + digitsVal fr < 2 ^ 64 * 10 ^ fr.length := by
    have h1 : (ip * 10 ^ fr.length + digitsVal fr) ≤
        (ip * 10 ^ fr.length + digitsVal fr) * 1000 := by omega
    have h2 : (ip * 10 ^ fr.length + digitsVal fr) / 10 ^ fr.length < 2 ^ 64 :=
      lt_of_le_of_lt (Nat.div_le_div_right h1) hup
    exact (Nat.div_lt_iff_lt_mul hkpos).mp h2
  have hpf : parseFloat (natToDigits ip ++ 46 :: fr) =
      some (.finite false (ip * 10 ^ fr.length + digitsVal fr) 10 (-(fr.length : Int))) := by
    rw [parseFloat_dec (natToDigits ip) fr (natToDigits_digits ip) (natToDigits_ne_nil ip)
      hfrd (hM ▸ hMlt), hM]
  simp only [parseLine,
    record_cut _ _ _ _ _ _ hid124 hs124 hu124 hf124 hl124,
    header_split _ _ _ _ _ hid32 hs32 hu32 hf32 hl32,
    if_pos (And.intro hid1 hid2),
    parseUint_natToDigits seq 64 hseq, hpf,
    parseUint_natToDigits fd 32 hfd, parseUint_natToDigits lvl 32 hlvl]
  simp only [mkLineInfo, uptimeMsOf_dec _ fr.length hup]

/-- C5 (amended): with the earlier fields well formed, parseLine fails with
the invalid-uptime error exactly when ParseFloat rejects the uptime field;
the sign of the value is not checked anywhere, so negative uptimes such as
-1.5 are accepted (their millisecond conversion is then implementation
dependent, see uptimeMsOf). -/
theorem c5_uptime_err_iff
    (ts : GoTime) (src id sD uD fD lD msg : List Nat) (seq : Nat)
    (hid1 : 0 < id.length) (hid2 : id.length ≤ 50)
    (hid32 : 32 ∉ id) (hid124 : 124 ∉ id)
    (hs : parseUint sD 64 = some seq)
    (hs32 : 32 ∉ sD) (hs124 : 124 ∉ sD)
    (hu32 : 32 ∉ uD) (hu124 : 124 ∉ uD)
    (hf32 : 32 ∉ fD) (hf124 : 124 ∉ fD)
    (hl32 : 32 ∉ lD) (hl124 : 124 ∉ lD) :
    ((parseLine ts src (mkRecord id sD uD fD lD msg)).1 = Except.error ParseErr.invalidUptime
      ↔ parseFloat uD = none) := by
  simp only [parseLine,
    record_cut _ _ _ _ _ _ hid124 hs124 hu124 hf124 hl124,
    header_split _ _ _ _ _ hid32 hs32 hu32 hf32 hl32,
    if_pos (And.intro hid1 hid2), hs]
  rcases hpf : parseFloat uD with _ | v
  · simp
  · rcases parseUint fD 32 with _ | fd
    · simp
    · rcases parseUint lD 32 with _ | lvl <;> simp

theorem parseLine_ok_li (ts : GoTime) (src line : List Nat) (li : LineInfo)
    (h : (parseLine ts src line).1 = Except.ok li) :
    ∃ p0 seq v fd lvl msg, li = mkLineInfo ts src p0 seq v fd lvl msg := by
  unfold parseLine at h
  rcases hcut : bytesCut line 124 with _ | ⟨info, msg⟩ <;> simp only [hcut] at h
  · exact absurd h (by simp)
  · rcases hsp : bytesSplit info 32 with _ | ⟨p0, _ | ⟨p1, _ | ⟨p2, _ | ⟨p3, _ |
      ⟨p4, _ | ⟨p5, rest⟩⟩⟩⟩⟩⟩ <;> simp only [hsp] at h <;>
      try exact absurd h (by simp)
    by_cases hidl : 0 < p0.length ∧ p0.length ≤ 50
    case neg =>
      rw [if_neg hidl] at h
      simp at h
    case pos =>
      rw [if_pos hidl] at h
      rcases hs1 : parseUint p1 64 with _ | seq <;> simp only [hs1] at h
      · exact absurd h (by simp)
      · rcases hs2 : parseFloat p2 with _ | v <;> simp only [hs2] at h
        · exact absurd h (by simp)
        · rcases hs3 : parseUint p3 32 with _ | fd <;> simp only [hs3] at h
          · exact absurd h (by simp)
          · rcases hs4 : parseUint p4 32 with _ | lvl <;> simp only [hs4] at h
            · exact absurd h (by simp)
            · simp at h
              exact ⟨p0, seq, v, fd, lvl, msg, h.symm⟩

/-- C6: for every successfully parsed event the level character is a pure
function of the level value: 0 to 4 yield the bytes of E, W, I, D, V, and
every other level yields the single decimal digit of level mod 10 (48 is
the byte of the digit zero); level 0 always yields E, never an empty
value. -/
theorem c6_level_char (ts : GoTime) (src line : List Nat) (li : LineInfo)
    (h : (parseLine ts src line).1 = Except.ok li) :
    li.levelChar = (if li.level = 0 then [69] else if li.level = 1 then [87]
      else if li.level = 2 then [73] else if li.level = 3 then [68]
      else if li.level = 4 then [86] else [48 + li.level % 10]) := by
  obtain ⟨p0, seq, v, fd, lvl, msg, rfl⟩ := parseLine_ok_li ts src line li h
  simp [mkLineInfo, levelCharOf]

theorem c6_level_char_witness :
    li17.levelChar = (if li17.level = 0 then [69] else if li17.level = 1 then [87]
      else if li17.level = 2 then [73] else if li17.level = 3 then [68]
      else if li17.level = 4 then [86] else [48 + li17.level % 10]) :=
  c6_level_char t0 [] c6line li17 rfl

/-- C7: the sanitization of device ids is idempotent, because the
replacement byte, the underscore, is itself in the allow-set. -/
theorem c7_sanitize_idempotent (s : List Nat) : sanitize (sanitize s) = sanitize s := by
  induction s with
  | nil => rfl
  | cons c r ih =>
    simp only [sanitize, List.map_cons] at ih ⊢
    rw [ih]
    congr 1
    by_cases h : safeChars c = true
    · simp [h]
    · simp only [h, if_false]
      norm_num [safeChars]

/-- C8 (counterexample): parseLine mutates the raw line buffer it is given.
On the record "a* 1 1 1 1|m" the star inside the device id is overwritten
with an underscore inside the buffer, so the buffer after the call differs
from the buffer before it, refuting the claim that the buffer is left
unchanged byte for byte. -/
theorem c8_counterexample : (parseLine t0 [] c8line).2 ≠ c8line := by decide

/-- C8 (amended): parseLine performs no I/O, and its only effect on the
caller is through the returned value and the line buffer: when parsing
fails the buffer is returned unchanged, and when parsing succeeds the bytes
of the first header field (the device id, a subslice of the buffer) are
sanitized in place and everything after them is unchanged. -/
theorem c8_buffer_mutation (ts : GoTime) (src line : List Nat) :
    (parseLine ts src line).2 =
      if exceptIsOk (parseLine ts src line).1 then mutatedLine line else line := by
  unfold parseLine mutatedLine
  rcases hcut : bytesCut line 124 with _ | ⟨info, msg⟩ <;> simp only [hcut]
  · simp [exceptIsOk]
  · rcases hsp : bytesSplit info 32 with _ | ⟨p0, _ | ⟨p1, _ | ⟨p2, _ | ⟨p3, _ |
      ⟨p4, _ | ⟨p5, rest⟩⟩⟩⟩⟩⟩ <;> simp only [hsp] <;> try simp [exceptIsOk]
    by_cases hidl : 0 < p0.length ∧ p0.length ≤ 50
    case neg =>
      rw [if_neg hidl]
      simp [exceptIsOk]
    case pos =>
      rw [if_pos hidl]
      have hp0 : p0 = info.takeWhile (fun c => c ≠ 32) := bytesSplit_head info 32 p0 _ hsp
      rcases hs1 : parseUint p1 64 with _ | seq <;> simp only [hs1]
      · simp [exceptIsOk]
      · rcases hs2 : parseFloat p2 with _ | v <;> simp only [hs2]
        · simp [exceptIsOk]
        · rcases hs3 : parseUint p3 32 with _ | fd <;> simp only [hs3]
          · simp [exceptIsOk]
          · rcases hs4 : parseUint p4 32 with _ | lvl <;> simp only [hs4]
            · simp [exceptIsOk]
            · simp [exceptIsOk, hp0]

/-- C3 (code bug): the allow-set keeps the dot byte, so the device id made
of two dots (length 2, accepted by the parser) sanitizes to itself, and the
per-day file path for the log root "logs" contains ".." as a full
slash-separated component: the file lands outside the log root, violating
the stated invariant that the sanitized id is always safe as a single path
component. -/
theorem c3_dotdot_escapes :
    ((parseLine t0 [] c3line).1.map (fun li => (li.deviceIDSafe,
        decide ([46, 46] ∈ bytesSplit (deviceLogPath [108, 111, 103, 115] li) 47)))) =
      Except.ok ([46, 46], true) := rfl

/-- C4 (counterexample): for the record "d 1 0.0015 1 1|m" the code computes
uptimeMs = 1 (truncation of 1.5), while the claim asserts round(0.0015 *
1000) = 2; the second conjunct evaluates that rounding on the exact scaled
integers 15 * 1000 over 10 ^ 4. -/
theorem c4_counterexample :
    ((parseLine t0 [] c4line).1.map (fun li => li.uptimeMs)) = Except.ok 1 ∧
    roundHalfUp (15 * 1000) (10 ^ 4) = 2 := ⟨rfl, rfl⟩

theorem c4_round_trip_truncated_witness :
    (parseLine t0 [] (mkRecord [100] (natToDigits 1) (natToDigits 12 ++ 46 :: [53])
        (natToDigits 3) (natToDigits 2) [109])).1 =
      Except.ok
        { src := [], timestamp := t0, deviceID := [100], seqNum := 1,
          uptimeMs := (12 * 10 ^ [53].length + digitsVal [53]) * 1000 / 10 ^ [53].length,
          fd := 3, level := 2, msg := [109], timestampStr := t0.formatted,
          deviceIDSafe := sanitize [100], year := pad4 t0.year, month := pad2 t0.month,
          day := pad2 t0.day, levelChar := levelCharOf 2 } :=
  c4_round_trip_truncated t0 [] [100] 1 12 [53] 3 2 [109]
    (by decide) (by decide) (by decide) (by decide) (by decide)
    (by decide) (by decide) (by decide) (by decide) (by decide)

/-- C5 (counterexample): the record "d 1 -1.5 1 1|m" has a negative uptime
field, yet parseLine succeeds: ParseFloat accepts the sign, and no
non-negativity check exists, refuting the claim that such input fails with
the invalid-uptime error. -/
theorem c5_counterexample : exceptIsOk (parseLine t0 [] c5line).1 = true := rfl

theorem c5_uptime_err_iff_witness :
    ((parseLine t0 [] (mkRecord [100] [49] [97] [49] [49] [109])).1 =
        Except.error ParseErr.invalidUptime ↔ parseFloat [97] = none) :=
  c5_uptime_err_iff t0 [] [100] [49] [97] [49] [49] [109] 1
    (by decide) (by decide) (by decide) (by decide) rfl
    (by decide) (by decide) (by decide) (by decide)
    (by decide) (by decide) (by decide) (by decide)

theorem findDevice_setDevice (devs : List (List Nat × DeviceInfo)) (k : List Nat)
    (v : DeviceInfo) : findDevice (setDevice devs k v) k = some v := by
  induction devs with
  | nil => simp [setDevice, findDevice]
  | cons p t ih =>
    obtain ⟨k0, v0⟩ := p
    by_cases h : k0 = k <;> simp [setDevice, findDevice, h, ih]

/-- C1 (counterexample): with a latest-symlink pattern configured (first
argument true) and the per-day target equal to the already open filename,
the write performs ONLY the two appends: no Readlink, no symlink
recreation, refuting the claim that the rotation still proceeds to the
symlink-maintenance step on the fast path. -/
theorem c1_counterexample :
    (fmWriteLine true [100] fsAllOk 5 [([97], devFast)] liA).2.1 =
      [FsOp.writeRecord true, FsOp.writeNewline true] := rfl

/-- C1 (amended): on the fast path (recomputed target filename equal to the
open filename of the handle), Open returns before the symlink step: the
write performs no filesystem operation beyond the two appends and logs no
diagnostic; symlink maintenance happens only when the file is (re)opened. -/
theorem c1_fast_path_no_symlink (latestConfigured : Bool) (dir : List Nat) (fs : FsOracle)
    (now : Nat) (devices : List (List Nat × DeviceInfo)) (li : LineInfo) (di : DeviceInfo)
    (hfind : findDevice devices li.deviceIDSafe = some di)
    (hname : di.fname = deviceLogPath dir li) (hopen : di.fdOpen = true) :
    (fmWriteLine latestConfigured dir fs now devices li).2.1 =
      [FsOp.writeRecord fs.writeRecordOk, FsOp.writeNewline fs.writeNlOk] ∧
    (fmWriteLine latestConfigured dir fs now devices li).2.2 = [] := by
  unfold fmWriteLine
  rw [hfind]
  simp only [Option.getD_some]
  unfold diOpen
  rw [if_pos (And.intro hname hopen)]
  simp

theorem c1_fast_path_no_symlink_witness :
    (fmWriteLine true [100] fsAllOk 5 [([97], devFast)] liA).2.1 =
      [FsOp.writeRecord fsAllOk.writeRecordOk, FsOp.writeNewline fsAllOk.writeNlOk] ∧
    (fmWriteLine true [100] fsAllOk 5 [([97], devFast)] liA).2.2 = [] :=
  c1_fast_path_no_symlink true [100] fsAllOk 5 [([97], devFast)] liA devFast rfl rfl rfl

theorem diOpen_reopen_openFile (latestConfigured : Bool) (dir : List Nat) (li : LineInfo)
    (fs : FsOracle) (di : DeviceInfo)
    (hnf : ¬ (di.fname = deviceLogPath dir li ∧ di.fdOpen = true))
    (hm : fs.mkdirOk = true) (ho : fs.openOk = true) :
    FsOp.openFile (deviceLogPath dir li) true ∈ (diOpen latestConfigured dir li fs di).2.1 := by
  unfold diOpen
  rw [if_neg hnf, if_neg (by simp [hm]), if_neg (by simp [ho])]
  by_cases hl : latestConfigured = true
  · simp only [hl, if_true]
    split
    · split <;> simp
    · simp
  · simp only [hl, if_false]
    simp

/-- C2 (counterexample): when directory creation fails during a rotation
from the stale filename "old", the line is dropped and the open-failure
diagnostic logged, but the recorded filename of the handle has ALREADY been
changed to the new target, refuting the claim that it is left unchanged
from its value before the failed attempt. -/
theorem c2_counterexample :
    findDevice (fmWriteLine true [100] fsMkFail 5 [([97], devOld)] liA).1 [97] =
      some ⟨false, deviceLogPath [100] liA, 0⟩ ∧
    deviceLogPath [100] liA ≠ [111, 108, 100] ∧
    (fmWriteLine true [100] fsMkFail 5 [([97], devOld)] liA).2.2 = [Diag.openFailed] :=
  ⟨rfl, by decide, rfl⟩

/-- C2 (amended): on directory-creation or file-open failure the line is
dropped (no append is traced, the open-failure diagnostic is logged) and
the handle is left with a nil file descriptor but with its recorded
filename already updated to the new target; the retry on the next write is
forced by the nil descriptor, which defeats the fast-path test, so a
subsequent write with a healthy filesystem opens the target file. -/
theorem c2_failure_state (latestConfigured : Bool) (dir : List Nat) (fs fs2 : FsOracle)
    (now now2 : Nat) (devices : List (List Nat × DeviceInfo)) (li : LineInfo)
    (di : DeviceInfo)
    (hfind : findDevice devices li.deviceIDSafe = some di)
    (hrot : di.fname ≠ deviceLogPath dir li)
    (hfail : fs.mkdirOk = false ∨ fs.openOk = false)
    (hm2 : fs2.mkdirOk = true) (ho2 : fs2.openOk = true) :
    findDevice (fmWriteLine latestConfigured dir fs now devices li).1 li.deviceIDSafe =
      some ⟨false, deviceLogPath dir li, di.lastUsed⟩ ∧
    (fmWriteLine latestConfigured dir fs now devices li).2.2 = [Diag.openFailed] ∧
    (∀ b, FsOp.writeRecord b ∉ (fmWriteLine latestConfigured dir fs now devices li).2.1) ∧
    FsOp.openFile (deviceLogPath dir li) true ∈
      (fmWriteLine latestConfigured dir fs2 now2
        (fmWriteLine latestConfigured dir fs now devices li).1 li).2.1 := by
  obtain ⟨dfo, dfn, dlu⟩ := di
  obtain ⟨fm, fo, frl, fsy, fw1, fw2⟩ := fs
  simp only at hrot hfail
  have hstep : fmWriteLine latestConfigured dir ⟨fm, fo, frl, fsy, fw1, fw2⟩ now devices li =
      (setDevice devices li.deviceIDSafe ⟨false, deviceLogPath dir li, dlu⟩,
       (if dfo = true then [FsOp.closeFile dfn] else []) ++
         (if fm = true then
            [FsOp.mkdirAll (filepathDir (deviceLogPath dir li)) true,
             FsOp.openFile (deviceLogPath dir li) false]
          else [FsOp.mkdirAll (filepathDir (deviceLogPath dir li)) false]),
       [Diag.openFailed]) := by
    unfold fmWriteLine
    rw [hfind]
    simp only [Option.getD_some]
    unfold diOpen
    rcases hfail with hf | hf <;> subst hf
    · simp [hrot]
    · rcases fm <;> simp [hrot]
  refine ⟨?_, ?_, ?_, ?_⟩
  · rw [hstep]
    exact findDevice_setDevice devices li.deviceIDSafe _
  · rw [hstep]
  · intro b hmem
    rw [hstep] at hmem
    rcases dfo <;> rcases fm <;> simp_all
  · rw [hstep]
    have hfd2 : findDevice (setDevice devices li.deviceIDSafe
        ⟨false, deviceLogPath dir li, dlu⟩) li.deviceIDSafe =
        some ⟨false, deviceLogPath dir li, dlu⟩ :=
      findDevice_setDevice devices li.deviceIDSafe _
    unfold fmWriteLine
    rw [hfd2]
    simp only [Option.getD_some]
    have hmem := diOpen_reopen_openFile latestConfigured dir li fs2
      ⟨false, deviceLogPath dir li, dlu⟩ (by simp) hm2 ho2
    split
    · exact List.mem_append_left _ hmem
    · exact hmem

theorem c2_failure_state_witness :
    findDevice (fmWriteLine true [100] fsMkFail 5 [([97], devOld)] liA).1 liA.deviceIDSafe =
      some ⟨false, deviceLogPath [100] liA, devOld.lastUsed⟩ ∧
    (fmWriteLine true [100] fsMkFail 5 [([97], devOld)] liA).2.2 = [Diag.openFailed] ∧
    (∀ b, FsOp.writeRecord b ∉ (fmWriteLine true [100] fsMkFail 5 [([97], devOld)] liA).2.1) ∧
    FsOp.openFile (deviceLogPath [100] liA) true ∈
      (fmWriteLine true [100] fsAllOk 6
        (fmWriteLine true [100] fsMkFail 5 [([97], devOld)] liA).1 liA).2.1 :=
  c2_failure_state true [100] fsMkFail fsAllOk 5 6 [([97], devOld)] liA devOld
    rfl (by decide) (Or.inl rfl) rfl rfl

/-- C10 (counterexample): with the device on the fast path and an oracle
whose record append fails, the trace contains a failed filesystem write
during the append, yet the diagnostics are empty: WriteLine discards the
error of recordTmpl.Execute, refuting the claim that every filesystem
error during a writeLine call, including during the write itself, is
surfaced via diagnostic logging. -/
theorem c10_counterexample :
    (fmWriteLine true [100] fsWriteFail 5 [([97], devFast)] liA).2.1 =
      [FsOp.writeRecord false, FsOp.writeNewline true] ∧
    (fmWriteLine true [100] fsWriteFail 5 [([97], devFast)] liA).2.2 = [] := ⟨rfl, rfl⟩

/-- C10 (amended): errors during rotation (directory creation, file open)
are logged and drop the line, and symlink errors are logged non-fatally,
but errors from the two appends (the rendered record and the trailing
newline) are ignored: the diagnostics of a write are invariant under the
outcomes of the append operations, so a failed append is silent and the
line may be lost without any log line. -/
theorem c10_append_errors_silent (latestConfigured : Bool) (dir : List Nat) (fs : FsOracle)
    (now : Nat) (devices : List (List Nat × DeviceInfo)) (li : LineInfo) (b1 b2 : Bool) :
    (fmWriteLine latestConfigured dir
        ⟨fs.mkdirOk, fs.openOk, fs.readlinkResult, fs.symlinkOk, b1, b2⟩
        now devices li).2.2 =
      (fmWriteLine latestConfigured dir fs now devices li).2.2 := by
  obtain ⟨fm, fo, frl, fsy, fw1, fw2⟩ := fs
  have hdo : diOpen latestConfigured dir li ⟨fm, fo, frl, fsy, b1, b2⟩ =
      diOpen latestConfigured dir li ⟨fm, fo, frl, fsy, fw1, fw2⟩ := rfl
  by_cases hc : (diOpen latestConfigured dir li ⟨fm, fo, frl, fsy, fw1, fw2⟩
      ((findDevice devices li.deviceIDSafe).getD ⟨false, [], now⟩)).2.2.2 = true
  · simp [fmWriteLine, hdo, hc]
  · simp [fmWriteLine, hdo, hc]

theorem readBytesNewline_append (l rest : List Nat) (hnl : 10 ∉ l) :
    readBytesNewline (l ++ 10 :: rest) = (l ++ [10], rest) := by
  induction l with
  | nil => simp [readBytesNewline]
  | cons c r ih =>
    simp at hnl
    have hc : ¬ c = 10 := fun hcc => hnl.1 hcc.symm
    simp [readBytesNewline, hc, ih hnl.2]

theorem trimCRLF_append_nl (l : List Nat) : trimCRLF (l ++ [10]) = trimCRLF l := by
  simp [trimCRLF, List.dropWhile]

/-- C9 (counterexample): the packet holding the two newline-terminated
records "a 1 2 3 4|m" and "x" yields exactly one processed line: after the
first record is consumed only 2 bytes remain, the loop guard requires more
than 10, and the trailing record "x" is silently skipped, never parsed and
never logged, refuting the claim that every newline-terminated record of a
packet is processed. -/
theorem c9_counterexample :
    packetLines [97, 32, 49, 32, 50, 32, 51, 32, 52, 124, 109, 10, 120, 10] =
      [[97, 32, 49, 32, 50, 32, 51, 32, 52, 124, 109]] := by
  rw [packetLines, dif_pos (by decide)]
  rw [packetLines, dif_neg (by decide)]
  rfl

/-- C9 (amended): a newline-terminated record at the front of the remaining
buffer is CR/LF-trimmed, parsed and routed whenever that remaining buffer
holds more than 10 bytes, and the rest of the packet is then processed
independently of the parse outcome; a trailing chunk of at most 10 bytes
(shorter than any well-formed record plus newline, hence never parseable)
is skipped. -/
theorem c9_records_processed (ts : GoTime) (src l rest : List Nat) (hnl : 10 ∉ l)
    (hlen : 10 < l.length + 1 + rest.length) :
    processPacket ts src (l ++ 10 :: rest) =
      (parseLine ts src (trimCRLF l)).1 :: processPacket ts src rest := by
  have hl : (l ++ 10 :: rest).length = l.length + 1 + rest.length := by
    simp
    omega
  rw [processPacket, dif_pos (by rw [hl]; exact hlen)]
  simp only [readBytesNewline_append l rest hnl, trimCRLF_append_nl]

theorem c9_records_processed_witness :
    processPacket t0 [] (c9l ++ 10 :: []) =
      (parseLine t0 [] (trimCRLF c9l)).1 :: processPacket t0 [] [] :=
  c9_records_processed t0 [] c9l [] (by decide) (by decide)
